import Mathlib

/-!
Verification development for the quantitative-trading research toolkit
(Beautiful-Model).  The Python source is shallowly embedded: pandas series
become `List ℚ` (or `List (Option ℚ)` when NaN matters), frame columns
become `List String`, and pandas/numpy library calls are modelled by their
documented behaviour on the inputs the code feeds them.  Decimal literals
of the source are represented exactly as rationals.
-/

namespace BeautifulModel

/-! ### Generic list helpers -/

/-- NaN removal: `series.dropna()`. -/
def dropna (l : List (Option ℚ)) : List ℚ := l.filterMap id

/-- Running sum, `series.cumsum()`: element `i` is the sum of the first
`i+1` entries. -/
def cumsum : List ℚ → List ℚ
  | [] => []
  | x :: xs => x :: (cumsum xs).map (x + ·)

/-- Maximum of a list (`none` on the empty list). -/
def listMax : List ℚ → Option ℚ
  | [] => none
  | x :: xs => some (xs.foldl max x)

/-! ### `calculate_returns` (src/utils/utils.py)

`calculate_returns(gross_results, filter_trades, fee, drawdown_min_window)`
builds a frame with columns Result, Liquid_Result, Total_Return,
Liquid_Return, max_Liquid_Return, drawdown.  The filter column is
`filter_trades.astype(int)`, modelled as `List ℤ`. -/

/-- `df["Result"] = np.where((Filter != 0) & (Result.abs() != 1), Result - fee, 0)`
applied to the gross results. -/
def netResults (filt : List ℤ) (gross : List ℚ) (fee : ℚ) : List ℚ :=
  List.zipWith (fun f g => if f ≠ 0 ∧ |g| ≠ 1 then g - fee else 0) filt gross

/-- `df["Liquid_Result"] = np.where((Filter != 0) & (Result.abs() != 1), Result - fee, 0)`.
Note the source reads the already-overwritten `Result` column here, so the
fee is deducted a second time on bars that remain active and non-sentinel. -/
def liquidResults (filt : List ℤ) (net : List ℚ) (fee : ℚ) : List ℚ :=
  List.zipWith (fun f r => if f ≠ 0 ∧ |r| ≠ 1 then r - fee else 0) filt net

/-- `df["Liquid_Return"] = df["Liquid_Result"].cumsum() + 1`. -/
def liquidReturn (gross : List ℚ) (filt : List ℤ) (fee : ℚ) : List ℚ :=
  (cumsum (liquidResults filt (netResults filt gross fee) fee)).map (· + 1)

/-- `series.expanding(w).max()` at position `i`: defined once `w`
observations exist (the series is NaN-free). -/
def expMaxAt (lr : List ℚ) (w i : ℕ) : Option ℚ :=
  if w ≤ i + 1 then listMax (lr.take (i + 1)) else none

/-- `np.where(max_col.diff(), np.nan, max_col)` at position `i`: the
expanding max is kept only where the diff is exactly zero (a NaN diff —
first row and warm-up region — and any nonzero diff are truthy and give
NaN). -/
def keptMaxAt (lr : List ℚ) (w i : ℕ) : Option ℚ :=
  match i with
  | 0 => none
  | j + 1 =>
    match expMaxAt lr w (j + 1), expMaxAt lr w j with
    | some m, some m' => if m = m' then some m else none
    | _, _ => none

/-- `df["drawdown"] = (1 - Liquid_Return / max_Liquid_Return).fillna(0)` at
position `i`.  (A NaN high-water mark gives NaN, filled with 0.) -/
def drawdownAt (lr : List ℚ) (w i : ℕ) : ℚ :=
  match keptMaxAt lr w i with
  | some m => 1 - lr.getD i 0 / m
  | none => 0

/-- The full drawdown column. -/
def drawdownCol (lr : List ℚ) (w : ℕ) : List ℚ :=
  (List.range lr.length).map (drawdownAt lr w)

/-- Result frame of `calculate_returns` (columns used by the claims). -/
structure CalcReturnsFrame where
  result : List ℚ
  liquid_result : List ℚ
  total_return : List ℚ
  liquid_return : List ℚ
  drawdown : List ℚ
  deriving DecidableEq, Repr

/-- `calculate_returns(gross_results, filter_trades, fee, drawdown_min_window)`. -/
def calculate_returns (gross : List ℚ) (filt : List ℤ) (fee : ℚ)
    (drawdown_min_window : ℕ) : CalcReturnsFrame :=
  let res := netResults filt gross fee
  let liq := liquidResults filt res fee
  let lr := (cumsum liq).map (· + 1)
  { result := res
    liquid_result := liq
    total_return := (cumsum res).map (· + 1)
    liquid_return := lr
    drawdown := drawdownCol lr drawdown_min_window }

/-! ### `DataHandler.calculate_targets` (src/machine_learning/utils.py) -/

/-- `close.pct_change(length)`: `close[i] / close[i-length] - 1`, NaN for
the first `length` rows (the close column itself is NaN-free). -/
def pctChange (length : ℕ) (close : List ℚ) : List (Option ℚ) :=
  (List.range close.length).map fun i =>
    if length ≤ i ∧ 0 < length then some (close.getD i 0 / close.getD (i - length) 0 - 1)
    else none

/-- `df["Return"] = close.pct_change(length) + 1` (NaN + 1 = NaN). -/
def returnCol (length : ℕ) (close : List ℚ) : List (Option ℚ) :=
  (pctChange length close).map (Option.map (· + 1))

/-- `df["Target_1"] = df["Return"].shift(-length)`. -/
def targetOne (length : ℕ) (close : List ℚ) : List (Option ℚ) :=
  (List.range close.length).map fun i => (returnCol length close).getD (i + length) none

/-- `df["Target_1_bin"]`: `np.where(Target_1 > 1, 1, 0)` (NaN > 1 is
false) and then `np.where(Target_1.isna(), nan, ...)`. -/
def targetOneBin (length : ℕ) (close : List ℚ) : List (Option ℚ) :=
  (targetOne length close).map fun t =>
    match t with
    | some v => some (if 1 < v then 1 else 0)
    | none => none

/-! ### `DataHandler.model_pipeline` split-location guard
(src/machine_learning/utils.py) -/

/-- The runtime type of `split_location` (str | float | int). -/
inductive SplitLocation where
  | str : String → SplitLocation
  | float : ℚ → SplitLocation
  | int : ℤ → SplitLocation
  deriving DecidableEq, Repr

/-- Python exceptions raised by the guard. -/
inductive PipeError where
  | typeError : PipeError
  | valueError : String → PipeError
  deriving DecidableEq, Repr

/-- `is_percentage_location = 0 < split_location < 1`.  For a string the
chained comparison `0 < split_location` raises `TypeError` in Python. -/
def isPercentageLocation : SplitLocation → Except PipeError Bool
  | .str _ => .error .typeError
  | .float q => .ok (decide (0 < q ∧ q < 1))
  | .int n => .ok (decide (0 < n ∧ n < 1))

/-- `isinstance(split_location, float)`. -/
def isFloatLocation : SplitLocation → Bool
  | .float _ => true
  | _ => false

/-- The validation prefix of `model_pipeline`: the `isinstance` check
(always satisfied by our type), the chained comparison, and
`if not (isinstance(split_location, float) and is_percentage_location): raise ValueError(...)`. -/
def model_pipeline_guard (loc : SplitLocation) : Except PipeError Unit :=
  match isPercentageLocation loc with
  | .error e => .error e
  | .ok isPct =>
    if ¬ (isFloatLocation loc = true ∧ isPct = true) then
      .error (.valueError "When split_location is a float, it should be between 0.0 and 1.0")
    else .ok ()

/-! ### `feature_binning` (src/machine_learning/model_features.py)

`feature_binning(feature, test_index, bins)` slices the training window,
runs `pd.qcut(train_series, bins, duplicates='drop')`, takes
`.value_counts().index.to_list()` (interval labels ordered by count,
descending), overwrites `lows.iloc[0]` and `highs.iloc[-1]` with the
sentinels, sorts the (lowest, highest) rows by `highest`, and maps every
non-NaN value of the full series to the index of the first row containing
it.

The qcut model follows pandas: quantile cut points with linear
interpolation, `np.unique` on the edges (`duplicates='drop'`), interval
labels rounded to 3 decimal digits with the lowest label edge lowered by
`10 ** -3` (`_format_labels` at its base precision; the
`_infer_precision` escalation loop for colliding rounded edges is not
modelled — the theorems below hypothesise that the rounded edges are
strictly increasing, and every concrete input used satisfies it), and
per-interval counts taken against the unrounded edges with
`include_lowest=True`. -/

/-- The very large negative sentinel `-999999999999` of the source. -/
def SENTN : ℚ := -999999999999

/-- The very large positive sentinel `999999999999` of the source. -/
def SENTP : ℚ := 999999999999

/-- Linear-interpolation quantile `q = num/den` of an already sorted
nonempty list, pandas `Series.quantile` semantics: position
`h = (n-1) * q`, value `s[⌊h⌋] + (h - ⌊h⌋) * (s[⌊h⌋+1] - s[⌊h⌋])`. -/
def quantileSorted (s : List ℚ) (num den : ℕ) : ℚ :=
  let n := s.length
  let hNum := (n - 1) * num
  let lo := hNum / den
  let frac : ℚ := (hNum : ℚ) / (den : ℚ) - (lo : ℚ)
  let a := s.getD lo 0
  let b := s.getD (min (lo + 1) (n - 1)) 0
  a + frac * (b - a)

/-- The raw qcut edges: quantiles at `np.linspace(0, 1, bins + 1)`. -/
def binEdgesRaw (train : List ℚ) (bins : ℕ) : List ℚ :=
  let s := train.insertionSort (· ≤ ·)
  (List.range (bins + 1)).map fun i => quantileSorted s i bins

/-- Adjacent deduplication of a list. -/
def dedupAdj : List ℚ → List ℚ
  | [] => []
  | [a] => [a]
  | a :: b :: t => if a = b then dedupAdj (b :: t) else a :: dedupAdj (b :: t)

/-- `np.unique`: sort, then drop duplicates. -/
def npUnique (l : List ℚ) : List ℚ := dedupAdj (l.insertionSort (· ≤ ·))

/-- Round to the nearest integer, ties to even (`np.around` at 0 digits). -/
def rndHalfEven (x : ℚ) : ℤ :=
  let f := ⌊x⌋
  if x - f < 1 / 2 then f
  else if 1 / 2 < x - f then f + 1
  else if f % 2 = 0 then f else f + 1

/-- `np.around(x, d)`: round to `d` decimal digits, half to even. -/
def roundTo (d : ℕ) (x : ℚ) : ℚ :=
  (rndHalfEven (x * 10 ^ d) : ℚ) / 10 ^ d

/-- Number of leading zero decimal digits of `f` with `0 < f < 1` (fuel
recursion; `⌊log10 f⌋ = -(lzCount f + 1)` there). -/
def lzFuel : ℕ → ℚ → ℕ
  | 0, _ => 0
  | fuel + 1, f => if 1 / 10 ≤ f then 0 else lzFuel fuel (10 * f) + 1

/-- Fuel wrapper: the denominator bounds the number of leading zeros. -/
def lzCount (f : ℚ) : ℕ := lzFuel f.den f

/-- pandas `_round_frac(x, 3)`: numbers with zero integer part are rounded
relative to their first significant digit, others to 3 decimal digits. -/
def roundFrac (x : ℚ) : ℚ :=
  if x = 0 then x
  else if |x| < 1 then roundTo (lzCount |x| + 3) x
  else roundTo 3 x

/-- The interval-label break points (`_format_labels`): the deduplicated
edges rounded, with the lowest break lowered by `10 ** -3`. -/
def binBreaksOf (uniq : List ℚ) : List ℚ :=
  match uniq.map roundFrac with
  | [] => []
  | b0 :: rest => (b0 - 1 / 1000) :: rest

/-- Break points fitted on a training window. -/
def binBreaks (train : List ℚ) (bins : ℕ) : List ℚ :=
  binBreaksOf (npUnique (binEdgesRaw train bins))

/-- `(left, right)` bounds of the consecutive right-closed intervals of a
break list (positional, ascending order). -/
def intervalsOfBreaks : List ℚ → List (ℚ × ℚ)
  | a :: b :: t => (a, b) :: intervalsOfBreaks (b :: t)
  | _ => []

/-- Per-interval member counts against the unrounded edges, with
`include_lowest=True` for the first interval. -/
def binCounts (uniq : List ℚ) (train : List ℚ) : List ℕ :=
  (List.range (uniq.length - 1)).map fun c =>
    if c = 0 then
      train.countP fun v => decide (uniq.getD 0 0 ≤ v ∧ v ≤ uniq.getD 1 0)
    else
      train.countP fun v => decide (uniq.getD c 0 < v ∧ v ≤ uniq.getD (c + 1) 0)

/-- `.value_counts().index.to_list()`: the interval labels reordered by
count, descending (stable for ties). -/
def valueCountsOrder (pairs : List ((ℚ × ℚ) × ℕ)) : List (ℚ × ℚ) :=
  (pairs.insertionSort fun a b => b.2 ≤ a.2).map Prod.fst

/-- `lows.iloc[0] = -999999999999; highs.iloc[-1] = 999999999999` followed
by `pd.concat([lows, highs], axis=1)`. -/
def applySentinels (iv : List (ℚ × ℚ)) : List (ℚ × ℚ) :=
  ((iv.map Prod.fst).set 0 SENTN).zip ((iv.map Prod.snd).set (iv.length - 1) SENTP)

/-- `.sort_values("highest").reset_index(drop=True)`. -/
def intervalsRange (iv : List (ℚ × ℚ)) : List (ℚ × ℚ) :=
  (applySentinels iv).insertionSort fun a b => a.2 ≤ b.2

/-- The fitted interval table of `feature_binning`. -/
def featureBinningTable (feature : List (Option ℚ)) (test_index bins : ℕ) :
    List (ℚ × ℚ) :=
  let train := dropna (feature.take test_index)
  let uniq := npUnique (binEdgesRaw train bins)
  intervalsRange
    (valueCountsOrder ((intervalsOfBreaks (binBreaksOf uniq)).zip (binCounts uniq train)))

/-- `intervals_range[(x >= lowest) & (x <= highest)].index[0]`: the first
row containing the value (`none` models the `IndexError` of an empty
selection). -/
def featureBinningTransform (table : List (ℚ × ℚ)) (x : ℚ) : Option ℕ :=
  table.findIdx? fun r => decide (r.1 ≤ x ∧ x ≤ r.2)

/-- `feature_binning`: every non-NaN value of the series mapped through
the fitted table. -/
def feature_binning (feature : List (Option ℚ)) (test_index bins : ℕ) :
    List (Option ℕ) :=
  (dropna feature).map (featureBinningTransform (featureBinningTable feature test_index bins))

/-- Modelled from the spec: the claimed Interval Table invariant — rows
ordered by upper edge are contiguous (monotonic, non-overlapping,
exhaustive between the sentinels), the first lower bound is the negative
sentinel and the last upper bound the positive sentinel. -/
def IntervalTableInvariant (t : List (ℚ × ℚ)) : Prop :=
  t.Chain' (fun a b => a.2 = b.1) ∧
  t.head?.map Prod.fst = some SENTN ∧
  (t.getLast?).map Prod.snd = some SENTP

instance (t : List (ℚ × ℚ)) : Decidable (IntervalTableInvariant t) := by
  unfold IntervalTableInvariant; infer_instance

/-! ### `FeaturesCreator` (src/machine_learning/features_creator.py) -/

/-- `itertools.combinations(l, k)` as lists, in the source order
(lexicographic by position). -/
def combos : ℕ → List String → List (List String)
  | 0, _ => [[]]
  | _ + 1, [] => []
  | k + 1, x :: xs => (combos k xs).map (x :: ·) ++ combos (k + 1) xs

/-- The `all_combinations` loop of `calculate_model_returns`:
`for items in range(1, 4): all_combinations.extend(combinations(temp_variables, items))`. -/
def allCombinations (vars : List String) : List (List String) :=
  (List.range' 1 3).flatMap fun k => combos k vars

/-- `temp_variables = ("temp_variable", "temp_variableH", "temp_variableL")`. -/
def tempVariables : List String :=
  ["temp_variable", "temp_variableH", "temp_variableL"]

/-- Python `repr` of a string (the variable names contain no quotes). -/
def pyStrRepr (s : String) : String := "'" ++ s ++ "'"

/-- Python `str` of a tuple of strings: a 1-tuple prints a trailing comma. -/
def pyTupleRepr : List String → String
  | [x] => "(" ++ pyStrRepr x ++ ",)"
  | l => "(" ++ String.intercalate ", " (l.map pyStrRepr) ++ ")"

/-- The result-dictionary keys of `calculate_model_returns`:
one `f"RSI{value}_{combination}"` per combination. -/
def calculateModelReturnsKeys (value : ℤ) : List String :=
  (allCombinations tempVariables).map fun c =>
    ("RSI" ++ toString value ++ "_") ++ pyTupleRepr c

/-- pandas column assignment `df[c] = ...`: an existing column is
overwritten in place, a new one is appended. -/
def addCol (cols : List String) (c : String) : List String :=
  if c ∈ cols then cols else cols ++ [c]

/-- The columns of `DataHandler.calculate_targets`: the frame gains
`Return`, `Target_1` and `Target_1_bin` (and nothing else). -/
def calculateTargetsCols (cols : List String) : List String :=
  addCol (addCol (addCol cols "Return") "Target_1") "Target_1_bin"

/-- First column of `need` missing from the frame (`df[need]` raises a
`KeyError` naming it). -/
def firstMissing (cols need : List String) : Option String :=
  need.find? fun c => ¬ c ∈ cols

/-- Column-level model of `FeaturesCreator.calculate_results`: the frame
columns were produced by `DataHandler(dataframe).calculate_targets()` in
`__init__`; slicing into development/validation keeps the columns;
`development[features_columns]` and then `development["Target_bin"]` are
looked up before the estimator is constructed and fitted.  The model fit
and everything after it are abstracted into the oracle `fit`, whose result
is returned on the success path. -/
def calculate_results_outcome (input_cols features_columns : List String)
    (fit : Unit → Bool) : Except String Bool :=
  let frame := calculateTargetsCols input_cols
  match firstMissing frame features_columns with
  | some c => .error c
  | none => if "Target_bin" ∈ frame then .ok (fit ()) else .error "Target_bin"

/-- A Python `str | int` value. -/
inductive PyVal where
  | int : ℤ → PyVal
  | str : String → PyVal
  deriving DecidableEq, Repr

/-- Python truthiness of `int | str`. -/
def pyTruthy : PyVal → Bool
  | .int n => n ≠ 0
  | .str s => s ≠ ""

/-- Python `given or default` on an optional value. -/
def pyOrDefault (given : Option PyVal) (dflt : PyVal) : PyVal :=
  match given with
  | none => dflt
  | some v => if pyTruthy v then v else dflt

/-- `int(self.data_frame.shape[0] * 0.7)` (exact real semantics of the
truncated product). -/
def defaultValidationIndex (n : ℕ) : ℤ := ⌊(n : ℚ) * (7 / 10)⌋

/-- `self.validation_index = validation_index or int(self.data_frame.shape[0] * 0.7)`
in `FeaturesCreator.__init__`. -/
def resolveValidationIndex (given : Option PyVal) (n : ℕ) : PyVal :=
  pyOrDefault given (.int (defaultValidationIndex n))

/-- `train_end_index = train_end_index or self.train_development_index`
in `FeaturesCreator.calculate_model_returns`. -/
def resolveTrainEnd (given : Option ℤ) (stored : ℤ) : ℤ :=
  match given with
  | none => stored
  | some v => if v ≠ 0 then v else stored

/-! ## Theorems -/

/-- C1: the split-location guard of `DataHandler.model_pipeline` raises for
every integer index (a `ValueError`) and for every string label (a
`TypeError` from the chained comparison `0 < split_location`), so the
documented integer/label split paths are unreachable — contradicting the
claim (and the method's own docstring) that valid integer indices and
labels proceed to the development/validation split without raising. -/
theorem C1_model_pipeline_raises_for_int_and_str :
    (∀ m : ℤ, model_pipeline_guard (.int m) =
      .error (.valueError
        "When split_location is a float, it should be between 0.0 and 1.0")) ∧
    (∀ s : String, model_pipeline_guard (.str s) = .error .typeError) := by
  constructor
  · intro m
    have h1 : isPercentageLocation (.int m) = .ok (decide (0 < m ∧ m < 1)) := rfl
    have h2 : isFloatLocation (.int m) = false := rfl
    simp [model_pipeline_guard, h1, h2]
  · intro s
    rfl

/-- C2 counterexample: for filter `[1,1,0,1]`, gross `[0.02,-0.01,0.5,1]`
and fee `0.001`, the `Result` column is not the claimed
`[0.019,-0.011,0,0.999]` — the sentinel `|result| == 1` bar is zeroed, not
kept at `1 - 0.001`. -/
theorem C2_counterexample_sentinel_bar :
    (calculate_returns [1/50, -1/100, 1/2, 1] [1, 1, 0, 1] (1/1000) 1).result ≠
      [19/1000, -11/1000, 0, 999/1000] := by
  norm_num [calculate_returns, netResults, abs]

/-- C2 amended: for filter `[1,1,0,1]`, gross `[0.02,-0.01,0.5,1]` and fee
`0.001`, the per-bar net results (`Result` column) are
`[0.019,-0.011,0,0]`: active non-sentinel bars pay the fee, and inactive
and sentinel bars are both zeroed entirely. -/
theorem C2_net_results_sentinel_zeroed :
    (calculate_returns [1/50, -1/100, 1/2, 1] [1, 1, 0, 1] (1/1000) 1).result =
      [19/1000, -11/1000, 0, 0] := by
  norm_num [calculate_returns, netResults, abs]

/-- C3 counterexample: for close prices `[100,110,99,99]` with horizon 1
the code's `Target_1_bin` is not the claimed `[1,0,1,NaN]`: at index 2 the
forward return is exactly 1.0, which does not satisfy `Target_1 > 1`, so
the bin is 0. -/
theorem C3_counterexample_unit_return_bin :
    targetOneBin 1 [100, 110, 99, 99] ≠ [some 1, some 0, some 1, none] := by
  norm_num [targetOneBin, targetOne, returnCol, pctChange, List.range_succ]

/-- C3 amended: for close prices `[100,110,99,99]` with horizon 1,
`Return = [NaN, 1.10, 0.9, 1.0]`, `Target_1 = [1.10, 0.9, 1.0, NaN]` and
`Target_1_bin = [1, 0, 0, NaN]` (strict `> 1`, NaN propagated at the
tail). -/
theorem C3_targets_example :
    returnCol 1 [100, 110, 99, 99] = [none, some (11/10), some (9/10), some 1] ∧
    targetOne 1 [100, 110, 99, 99] = [some (11/10), some (9/10), some 1, none] ∧
    targetOneBin 1 [100, 110, 99, 99] = [some 1, some 0, some 0, none] := by
  refine ⟨?_, ?_, ?_⟩ <;>
    norm_num [targetOneBin, targetOne, returnCol, pctChange, List.range_succ]

/-- C4: the Interval Table invariant fails on the training series
`[1,2,3,4,5,5,5]` with 3 requested bins.  Duplicate-edge dropping leaves
the two quantile intervals `(0.999, 3]` (3 members) and `(3, 5]`
(4 members); `value_counts()` orders them by count, so the negative
sentinel overwrites the lower edge of the *most frequent* interval and the
positive sentinel the upper edge of the *least frequent* one, producing
the overlapping table `[(-999999999999, 5), (0.999, 999999999999)]`. -/
theorem C4_sentinels_misassigned :
    featureBinningTable ([1, 2, 3, 4, 5, 5, 5].map Option.some) 7 3 =
      [(SENTN, 5), (999/1000, SENTP)] ∧
    ¬ IntervalTableInvariant
        (featureBinningTable ([1, 2, 3, 4, 5, 5, 5].map Option.some) 7 3) := by
  have htab : featureBinningTable ([1, 2, 3, 4, 5, 5, 5].map Option.some) 7 3 =
      [(SENTN, 5), (999/1000, SENTP)] := by
    norm_num [featureBinningTable, dropna, binEdgesRaw, quantileSorted, npUnique, dedupAdj,
      binBreaksOf, roundFrac, roundTo, rndHalfEven, abs, intervalsOfBreaks, binCounts,
      valueCountsOrder, applySentinels, intervalsRange, SENTN, SENTP,
      List.insertionSort, List.orderedInsert, List.range_succ, List.countP_cons]
  refine ⟨htab, ?_⟩
  rw [htab]
  intro hinv
  have := hinv.1
  norm_num [SENTN, SENTP] at this

/-- C6: the bin edges and the fitted interval table depend only on the
training slice `[0, test_index)` of the feature series — two series that
agree there fit identical boundaries, whatever lives at later indices. -/
theorem C6_fit_noninterference (f₁ f₂ : List (Option ℚ)) (k bins : ℕ)
    (h : f₁.take k = f₂.take k) :
    binBreaks (dropna (f₁.take k)) bins = binBreaks (dropna (f₂.take k)) bins ∧
    featureBinningTable f₁ k bins = featureBinningTable f₂ k bins := by
  refine ⟨by rw [h], ?_⟩
  unfold featureBinningTable
  rw [h]

/-- C6 witness: two series agreeing on the first four entries and
differing afterwards fit the same interval table. -/
theorem C6_fit_noninterference_witness :
    ([some (1:ℚ), some 2, some 3, some 4, some 5].take 4 =
      [some (1:ℚ), some 2, some 3, some 4, some 100, some 200].take 4) ∧
    featureBinningTable [some 1, some 2, some 3, some 4, some 5] 4 2 =
      featureBinningTable [some 1, some 2, some 3, some 4, some 100, some 200] 4 2 :=
  ⟨rfl, (C6_fit_noninterference _ _ 4 2 rfl).2⟩

/-- C10: a split boundary of 0 is falsy for Python `or`, so
`FeaturesCreator.__init__` replaces `validation_index = 0` with
`int(len * 0.7)`, `calculate_model_returns` replaces `train_end_index = 0`
with the stored train/development midpoint, and passing 0 is
indistinguishable from passing nothing. -/
theorem C10_zero_boundary_replaced (n : ℕ) (stored : ℤ) :
    resolveValidationIndex (some (.int 0)) n = .int (defaultValidationIndex n) ∧
    resolveTrainEnd (some 0) stored = stored ∧
    resolveValidationIndex (some (.int 0)) n = resolveValidationIndex none n := by
  refine ⟨?_, ?_, ?_⟩ <;> simp [resolveValidationIndex, resolveTrainEnd, pyOrDefault, pyTruthy]

/-- Appending a fixed string on the left is injective. -/
theorem string_append_left_inj (s : String) :
    Function.Injective (fun r => s ++ r) := by
  intro a b hab
  have hd := congrArg String.data hab
  simp only [String.data_append] at hd
  exact String.ext (List.append_cancel_left hd)

/-- C8: `calculate_model_returns` enumerates exactly the seven non-empty
subsets (sizes 1..3) of the three binned temp-variable columns, and the
result dictionary gets seven distinct keys, one per subset. -/
theorem C8_seven_combinations (value : ℤ) :
    allCombinations tempVariables =
      [["temp_variable"], ["temp_variableH"], ["temp_variableL"],
       ["temp_variable", "temp_variableH"], ["temp_variable", "temp_variableL"],
       ["temp_variableH", "temp_variableL"],
       ["temp_variable", "temp_variableH", "temp_variableL"]] ∧
    (calculateModelReturnsKeys value).length = 7 ∧
    (calculateModelReturnsKeys value).Nodup := by
  refine ⟨by decide, ?_, ?_⟩
  · simp only [calculateModelReturnsKeys, List.length_map]
    decide
  · have hre : calculateModelReturnsKeys value =
        ((allCombinations tempVariables).map pyTupleRepr).map
          (fun r => ("RSI" ++ toString value ++ "_") ++ r) := by
      simp only [calculateModelReturnsKeys, List.map_map]
      rfl
    rw [hre]
    exact List.Nodup.map (string_append_left_inj _) (by decide)

/-- Membership after a pandas column assignment. -/
theorem mem_addCol {cols : List String} {c x : String} :
    x ∈ addCol cols c ↔ x ∈ cols ∨ x = c := by
  unfold addCol
  by_cases hc : c ∈ cols <;> simp [hc]
  rintro rfl
  exact hc

/-- `calculate_targets` only ever adds the columns `Return`, `Target_1`
and `Target_1_bin`. -/
theorem mem_calculateTargetsCols {cols : List String} {x : String} :
    x ∈ calculateTargetsCols cols ↔
      x ∈ cols ∨ x = "Return" ∨ x = "Target_1" ∨ x = "Target_1_bin" := by
  unfold calculateTargetsCols
  simp [mem_addCol]
  tauto

/-- C9: on any input frame without a `Target_bin` column, every call to
`FeaturesCreator.calculate_results` fails with a missing-column key error
— and does so before the model-fit stage, whose oracle never influences
the outcome — because initialization only derives `Target_1_bin`. -/
theorem C9_missing_target_bin_errors (cols fcols : List String)
    (h : "Target_bin" ∉ cols) :
    ∃ c, ∀ fit : Unit → Bool, calculate_results_outcome cols fcols fit = .error c := by
  have hframe : "Target_bin" ∉ calculateTargetsCols cols := by
    intro hmem
    rcases mem_calculateTargetsCols.1 hmem with h1 | h1 | h1 | h1
    · exact h h1
    all_goals simp at h1
  unfold calculate_results_outcome
  cases hfm : firstMissing (calculateTargetsCols cols) fcols with
  | some c => exact ⟨c, fun fit => by simp [hfm]⟩
  | none => exact ⟨"Target_bin", fun fit => by simp [hfm, hframe]⟩

/-- C9 witness: a plain OHLC frame (just a `close` column) with an empty
feature list already fails with the `Target_bin` key error. -/
theorem C9_missing_target_bin_witness :
    "Target_bin" ∉ ["close"] ∧
    ∃ c, ∀ fit : Unit → Bool,
      calculate_results_outcome ["close"] [] fit = .error c :=
  ⟨by decide, C9_missing_target_bin_errors ["close"] [] (by decide)⟩

/-- Elements below the accumulator stay below a `foldl max`. -/
theorem foldl_max_ge : ∀ (l : List ℚ) (a x : ℚ), x ∈ l ∨ x ≤ a → x ≤ l.foldl max a := by
  intro l
  induction l with
  | nil =>
    intro a x h
    simpa using h.resolve_left (by simp)
  | cons b t ih =>
    intro a x h
    simp only [List.foldl_cons]
    rcases h with h | h
    · rcases List.mem_cons.1 h with rfl | h
      · exact ih _ _ (Or.inr (le_max_right a x))
      · exact ih _ _ (Or.inl h)
    · exact ih _ _ (Or.inr (le_trans h (le_max_left a b)))

/-- `listMax` bounds every member of the list. -/
theorem listMax_ge {l : List ℚ} {m x : ℚ} (hm : listMax l = some m) (hx : x ∈ l) :
    x ≤ m := by
  cases l with
  | nil => simp at hx
  | cons y t =>
    have hm' : t.foldl max y = m := by simpa [listMax] using hm
    rcases List.mem_cons.1 hx with rfl | hx
    · exact hm' ▸ foldl_max_ge t x x (Or.inr le_rfl)
    · exact hm' ▸ foldl_max_ge t y x (Or.inl hx)

/-- Wherever the retained high-water mark is positive, the drawdown is
non-negative (the cumulative liquid return never exceeds its running
maximum). -/
theorem drawdownAt_nonneg (lr : List ℚ) (w i : ℕ) (m : ℚ)
    (hkept : keptMaxAt lr w i = some m) (hm : 0 < m) :
    0 ≤ drawdownAt lr w i := by
  have hexp : expMaxAt lr w i = some m := by
    match i, hkept with
    | j + 1, hkept =>
      simp only [keptMaxAt] at hkept
      cases h1 : expMaxAt lr w (j + 1) with
      | none => simp [h1] at hkept
      | some a =>
        cases h2 : expMaxAt lr w j with
        | none => simp [h1, h2] at hkept
        | some b =>
          by_cases hab : a = b
          · simp [h1, h2, hab] at hkept
            rw [hab, hkept]
          · simp [h1, h2, hab] at hkept
  have hmax : listMax (lr.take (i + 1)) = some m := by
    unfold expMaxAt at hexp
    by_cases hw : w ≤ i + 1
    · simpa [hw] using hexp
    · simp [hw] at hexp
  unfold drawdownAt
  rw [hkept]
  by_cases hlen : i < lr.length
  · have hmem : lr.getD i 0 ∈ lr.take (i + 1) := by
      have hi' : i < (lr.take (i + 1)).length := by
        simp [List.length_take]
        omega
      have h4 : (lr.take (i + 1))[i] = lr[i] := List.getElem_take _
      rw [List.getD_eq_getElem lr 0 hlen, ← h4]
      exact List.getElem_mem hi'
    have hle : lr.getD i 0 ≤ m := listMax_ge hmax hmem
    have : lr.getD i 0 / m ≤ 1 := (div_le_one hm).2 hle
    linarith
  · have : lr.getD i 0 = 0 := List.getD_eq_default _ _ (by omega)
    rw [this]
    norm_num

/-- C7 counterexample: gross `[-1.5, -0.5]`, filter `[1, 1]`, fee 0 and
window 1 drive the cumulative liquid return negative, and the drawdown
column is `[0, -1]` — the claimed everywhere-non-negativity fails. -/
theorem C7_counterexample_negative_drawdown :
    (calculate_returns [-3/2, -1/2] [1, 1] 0 1).drawdown = [0, -1] ∧
    ¬ ∀ x ∈ (calculate_returns [-3/2, -1/2] [1, 1] 0 1).drawdown, 0 ≤ x := by
  have h : (calculate_returns [-3/2, -1/2] [1, 1] 0 1).drawdown = [0, -1] := by
    norm_num [calculate_returns, netResults, liquidResults, cumsum, drawdownCol,
      drawdownAt, keptMaxAt, expMaxAt, listMax, abs, List.range_succ]
  refine ⟨h, fun hall => ?_⟩
  have := hall (-1) (h ▸ by simp)
  linarith

/-- C7 amended: the drawdown of `calculate_returns` is non-negative at
every bar whose retained high-water mark is positive, and is exactly 0 at
every bar where the mark is undefined (the warm-up region and each bar
that sets a new running maximum); with a negative high-water mark —
a cumulative liquid return below zero — it can go negative. -/
theorem C7_drawdown_nonneg_positive_hwm (gross : List ℚ) (filt : List ℤ) (fee : ℚ)
    (w i : ℕ) :
    (∀ m, keptMaxAt (liquidReturn gross filt fee) w i = some m → 0 < m →
      0 ≤ drawdownAt (liquidReturn gross filt fee) w i) ∧
    (keptMaxAt (liquidReturn gross filt fee) w i = none →
      drawdownAt (liquidReturn gross filt fee) w i = 0) := by
  refine ⟨fun m hk hm => drawdownAt_nonneg _ _ _ _ hk hm, fun hk => ?_⟩
  unfold drawdownAt
  rw [hk]

/-- C7 witness: for gross `[0.5, -0.25]`, filter `[1, 1]`, fee 0 and
window 1, the high-water mark at bar 1 is the retained `3/2 > 0` and the
drawdown there is non-negative. -/
theorem C7_drawdown_witness :
    keptMaxAt (liquidReturn [1/2, -1/4] [1, 1] 0) 1 1 = some (3/2) ∧
    (0 : ℚ) < 3/2 ∧
    0 ≤ drawdownAt (liquidReturn [1/2, -1/4] [1, 1] 0) 1 1 := by
  have h1 : keptMaxAt (liquidReturn [1/2, -1/4] [1, 1] 0) 1 1 = some (3/2) := by
    norm_num [keptMaxAt, expMaxAt, listMax, liquidReturn, liquidResults, netResults,
      cumsum, abs]
  exact ⟨h1, by norm_num,
    (C7_drawdown_nonneg_positive_hwm [1/2, -1/4] [1, 1] 0 1 1).1 (3/2) h1 (by norm_num)⟩

/-- A list on which some element satisfies the predicate has a first
matching index. -/
theorem findIdx_isSome_of_exists {α : Type} {p : α → Bool} {l : List α}
    (h : ∃ x ∈ l, p x = true) : (l.findIdx? p).isSome := by
  rw [List.findIdx?_isSome]
  simpa using h

/-- Under a strictly increasing chain, the head is bounded by the last
element. -/
theorem chain_head_le_getLast : ∀ (l : List ℚ) (a bl : ℚ),
    (a :: l).Chain' (· < ·) → (a :: l).getLast? = some bl → a ≤ bl := by
  intro l
  induction l with
  | nil =>
    intro a bl _ h
    simp at h
    exact le_of_eq h
  | cons b t ih =>
    intro a bl hch hlast
    rw [List.getLast?_cons_cons] at hlast
    have hab : a < b := (List.chain'_cons.1 hch).1
    exact le_trans hab.le (ih b bl (List.chain'_cons.1 hch).2 hlast)

/-- Every consecutive-break interval sits between the first and the last
break, with a strictly smaller left edge. -/
theorem intervalsOfBreaks_bounds : ∀ (brs : List ℚ), brs.Chain' (· < ·) →
    ∀ p ∈ intervalsOfBreaks brs,
      (∀ b0, brs.head? = some b0 → b0 ≤ p.1) ∧ p.1 < p.2 ∧
      (∀ bl, brs.getLast? = some bl → p.2 ≤ bl) := by
  intro brs
  induction brs with
  | nil => intro _ p hp; simp [intervalsOfBreaks] at hp
  | cons a rest ih =>
    intro hch p hp
    cases rest with
    | nil => simp [intervalsOfBreaks] at hp
    | cons b t =>
      rw [show intervalsOfBreaks (a :: b :: t) = (a, b) :: intervalsOfBreaks (b :: t)
        from rfl] at hp
      have hab : a < b := (List.chain'_cons.1 hch).1
      have hbt := (List.chain'_cons.1 hch).2
      rcases List.mem_cons.1 hp with rfl | hp
      · refine ⟨?_, hab, ?_⟩
        · intro b0 h
          simp at h
          exact le_of_eq h.symm
        · intro bl h
          rw [List.getLast?_cons_cons] at h
          exact chain_head_le_getLast t b bl hbt h
      · obtain ⟨h1, h2, h3⟩ := ih hbt p hp
        refine ⟨?_, h2, ?_⟩
        · intro b0 h
          simp at h
          subst h
          exact le_trans hab.le (h1 b rfl)
        · intro bl h
          rw [List.getLast?_cons_cons] at h
          exact h3 bl h

/-- Chain coverage: a value strictly above the first break and at most the
last break lies in one of the consecutive intervals. -/
theorem chain_cover : ∀ (brs : List ℚ) (v : ℚ), brs.Chain' (· < ·) →
    (∀ b0, brs.head? = some b0 → b0 < v) →
    (∀ bl, brs.getLast? = some bl → v ≤ bl) →
    2 ≤ brs.length →
    ∃ p ∈ intervalsOfBreaks brs, p.1 < v ∧ v ≤ p.2 := by
  intro brs
  induction brs with
  | nil => intro v _ _ _ hlen; simp at hlen
  | cons a rest ih =>
    intro v hch hhead hlast hlen
    cases rest with
    | nil => simp at hlen
    | cons b t =>
      have hbt := (List.chain'_cons.1 hch).2
      by_cases hv : v ≤ b
      · exact ⟨(a, b),
          by rw [show intervalsOfBreaks (a :: b :: t) = (a, b) :: intervalsOfBreaks (b :: t)
            from rfl]; exact List.mem_cons_self _ _,
          hhead a rfl, hv⟩
      · push_neg at hv
        cases t with
        | nil =>
          exfalso
          have := hlast b (by simp)
          linarith
        | cons c t' =>
          obtain ⟨p, hp, h1, h2⟩ := ih v hbt
            (fun b0 h => by simp at h; subst h; exact hv)
            (fun bl h => hlast bl (by rw [List.getLast?_cons_cons]; exact h))
            (by simp)
          refine ⟨p, ?_, h1, h2⟩
          rw [show intervalsOfBreaks (a :: b :: c :: t') =
            (a, b) :: intervalsOfBreaks (b :: c :: t') from rfl]
          exact List.mem_cons_of_mem _ hp

/-- Rounding and the lowest-edge adjustment keep the number of breaks. -/
theorem length_binBreaksOf (uniq : List ℚ) :
    (binBreaksOf uniq).length = uniq.length := by
  unfold binBreaksOf
  cases h : uniq.map roundFrac with
  | nil =>
    have h2 : uniq = [] := by simpa using h
    simp [h2]
  | cons b rest =>
    have h2 := congrArg List.length h
    simp only [List.length_map, List.length_cons] at h2
    simp [h2]

/-- `k + 1` breaks make `k` intervals. -/
theorem length_intervalsOfBreaks : ∀ (l : List ℚ),
    (intervalsOfBreaks l).length = l.length - 1 := by
  intro l
  induction l with
  | nil => rfl
  | cons a t ih =>
    cases t with
    | nil => rfl
    | cons b t' =>
      rw [show intervalsOfBreaks (a :: b :: t') = (a, b) :: intervalsOfBreaks (b :: t')
        from rfl]
      simp only [List.length_cons, ih]
      omega

/-- Overwriting the sentinel cells keeps the number of rows. -/
theorem length_applySentinels (iv : List (ℚ × ℚ)) :
    (applySentinels iv).length = iv.length := by
  simp [applySentinels]

/-- Row `j` of the sentinel-patched table: the first row's lower bound and
the last row's upper bound are the sentinels, all other cells are
unchanged. -/
theorem applySentinels_getElem (iv : List (ℚ × ℚ)) (j : ℕ) (hj : j < iv.length)
    (hj' : j < (applySentinels iv).length) :
    (applySentinels iv)[j] =
      ((if j = 0 then SENTN else iv[j].1),
       (if j = iv.length - 1 then SENTP else iv[j].2)) := by
  have hjf : j < ((iv.map Prod.fst).set 0 SENTN).length := by simpa using hj
  have hjs : j < ((iv.map Prod.snd).set (iv.length - 1) SENTP).length := by simpa using hj
  unfold applySentinels at hj' ⊢
  rw [List.getElem_zip]
  have h1 : ((iv.map Prod.fst).set 0 SENTN)[j] =
      if j = 0 then SENTN else iv[j].1 := by
    rw [List.getElem_set]
    by_cases h0 : j = 0
    · simp [h0]
    · rw [if_neg (fun h => h0 h.symm), if_neg h0, List.getElem_map]
  have h2 : ((iv.map Prod.snd).set (iv.length - 1) SENTP)[j] =
      if j = iv.length - 1 then SENTP else iv[j].2 := by
    rw [List.getElem_set]
    by_cases hl : j = iv.length - 1
    · simp [hl]
    · rw [if_neg (fun h => hl h.symm), if_neg hl, List.getElem_map]
  rw [h1, h2]

/-- Coverage of the final table rows: whatever permutation `value_counts`
produced, every value between the sentinels is contained in some
sentinel-patched row, provided the original intervals cover it in one of
the three ways (below the lowest edge, inside an interval, above the
highest edge). -/
theorem table_covers (iv per : List (ℚ × ℚ)) (hper : per.Perm iv) (v : ℚ)
    (hSN : SENTN ≤ v) (hSP : v ≤ SENTP)
    (hcase : (∀ p ∈ iv, v ≤ p.2) ∨ (∃ p ∈ iv, p.1 ≤ v ∧ v ≤ p.2) ∨
      (∀ p ∈ iv, p.1 ≤ v))
    (hne : iv ≠ []) :
    ∃ r ∈ applySentinels per, r.1 ≤ v ∧ v ≤ r.2 := by
  have hlen : per.length = iv.length := hper.length_eq
  have hpos : 0 < per.length := by
    rw [hlen]
    cases iv
    · exact absurd rfl hne
    · simp
  have key : ∀ (j : ℕ) (hj : j < per.length),
      (if j = 0 then SENTN else (per.get (Fin.mk j hj)).1) ≤ v →
      v ≤ (if j = per.length - 1 then SENTP else (per.get (Fin.mk j hj)).2) →
      ∃ r ∈ applySentinels per, r.1 ≤ v ∧ v ≤ r.2 := by
    intro j hj hc1 hc2
    have hj' : j < (applySentinels per).length := by
      rw [length_applySentinels]
      exact hj
    refine ⟨(applySentinels per)[j], List.getElem_mem _, ?_⟩
    rw [applySentinels_getElem per j hj hj']
    simp only [List.get_eq_getElem] at hc1 hc2
    exact ⟨hc1, hc2⟩
  rcases hcase with hall | ⟨p, hp, h1, h2⟩ | hall
  · refine key 0 hpos (by simp [hSN]) ?_
    by_cases hend : (0 : ℕ) = per.length - 1
    · rw [if_pos hend]
      exact hSP
    · rw [if_neg hend]
      exact hall _ (hper.subset (List.getElem_mem _))
  · obtain ⟨j, hj, hpj⟩ := List.getElem_of_mem (hper.mem_iff.2 hp)
    refine key j hj ?_ ?_
    · by_cases h0 : j = 0
      · rw [if_pos h0]
        exact hSN
      · rw [if_neg h0]
        simp only [List.get_eq_getElem]
        rw [hpj]
        exact h1
    · by_cases hl : j = per.length - 1
      · rw [if_pos hl]
        exact hSP
      · rw [if_neg hl]
        simp only [List.get_eq_getElem]
        rw [hpj]
        exact h2
  · refine key (per.length - 1) (by omega) ?_ (by simp [hSP])
    by_cases h0 : per.length - 1 = 0
    · rw [if_pos h0]
      exact hSN
    · rw [if_neg h0]
      exact hall _ (hper.subset (List.getElem_mem _))

/-- C5 amended: for values within the sentinel range
`[-999999999999, 999999999999]`, the `feature_binning` lookup always finds
a first containing interval, whatever the training data produced
(hypotheses: the fitted label breaks are strictly increasing with at least
two entries, which also covers the scrambled-sentinel tables of C4).
Values beyond the sentinels are not covered — see the counterexample. -/
theorem C5_transform_total_within_sentinels
    (feature : List (Option ℚ)) (test_index bins : ℕ) (v : ℚ)
    (hch : (binBreaks (dropna (feature.take test_index)) bins).Chain' (· < ·))
    (hlen : 2 ≤ (binBreaks (dropna (feature.take test_index)) bins).length)
    (hSN : SENTN ≤ v) (hSP : v ≤ SENTP) :
    (featureBinningTransform (featureBinningTable feature test_index bins) v).isSome := by
  set train := dropna (feature.take test_index) with htrain
  set uniq := npUnique (binEdgesRaw train bins) with huniq
  set brs := binBreaksOf uniq with hbrsdef
  rw [show binBreaks train bins = brs from rfl] at hch hlen
  set iv := intervalsOfBreaks brs with hivdef
  set counts := binCounts uniq train with hcountsdef
  set per := valueCountsOrder (iv.zip counts) with hperdef
  have htable : featureBinningTable feature test_index bins = intervalsRange per := rfl
  have hlb : brs.length = uniq.length := length_binBreaksOf uniq
  have hli : iv.length = brs.length - 1 := length_intervalsOfBreaks brs
  have hlc : counts.length = uniq.length - 1 := by
    rw [hcountsdef]
    simp [binCounts]
  have hivle : iv.length ≤ counts.length := by omega
  have hperm : per.Perm iv := by
    have h1 : (iv.zip counts).map Prod.fst = iv := List.map_fst_zip _ _ hivle
    have h2 : per.Perm ((iv.zip counts).map Prod.fst) :=
      (List.perm_insertionSort _ _).map _
    rw [h1] at h2
    exact h2
  have hivne : iv ≠ [] := by
    intro h
    rw [h] at hli
    simp at hli
    omega
  obtain ⟨b0, rest, hbrs⟩ : ∃ b0 rest, brs = b0 :: rest := by
    cases hb : brs
    · rw [hb] at hlen; simp at hlen
    · exact ⟨_, _, rfl⟩
  obtain ⟨bl, hbl⟩ : ∃ bl, brs.getLast? = some bl := by
    rw [hbrs]
    exact Option.isSome_iff_exists.1 (by simp [List.getLast?_isSome])
  have hcase : (∀ p ∈ iv, v ≤ p.2) ∨ (∃ p ∈ iv, p.1 ≤ v ∧ v ≤ p.2) ∨
      (∀ p ∈ iv, p.1 ≤ v) := by
    rcases le_or_lt v b0 with hv0 | hv0
    · left
      intro p hp
      obtain ⟨h1, h2, _⟩ := intervalsOfBreaks_bounds brs hch p hp
      have hb0 : b0 ≤ p.1 := h1 b0 (by rw [hbrs]; rfl)
      linarith
    · rcases le_or_lt v bl with hvl | hvl
      · right; left
        obtain ⟨p, hp, h1, h2⟩ := chain_cover brs v hch
          (fun c hc => by rw [hbrs] at hc; simp at hc; subst hc; exact hv0)
          (fun c hc => by rw [hbl] at hc; injection hc with hc; subst hc; exact hvl)
          hlen
        exact ⟨p, hp, h1.le, h2⟩
      · right; right
        intro p hp
        obtain ⟨_, h2, h3⟩ := intervalsOfBreaks_bounds brs hch p hp
        have := h3 bl hbl
        linarith
  obtain ⟨r, hr, hr1, hr2⟩ := table_covers iv per hperm v hSN hSP hcase hivne
  rw [htable]
  apply findIdx_isSome_of_exists
  refine ⟨r, ?_, ?_⟩
  · unfold intervalsRange
    exact (List.mem_insertionSort _).2 hr
  · simp [hr1, hr2]

/-- C5 counterexample: the sentinels are finite, so a real value below
`-999999999999` (here `-1000000000001`) is contained in no fitted
interval: the lookup comes back empty and `.index[0]` raises. -/
theorem C5_counterexample_beyond_sentinel :
    featureBinningTransform
      (featureBinningTable ([1, 2, 3, 4].map Option.some) 4 2)
      (-1000000000001) = none := by
  have htab : featureBinningTable ([1, 2, 3, 4].map Option.some) 4 2 =
      [(SENTN, 5/2), (5/2, SENTP)] := by
    norm_num [featureBinningTable, dropna, binEdgesRaw, quantileSorted, npUnique, dedupAdj,
      binBreaksOf, roundFrac, roundTo, rndHalfEven, abs, intervalsOfBreaks, binCounts,
      valueCountsOrder, applySentinels, intervalsRange, SENTN, SENTP,
      List.insertionSort, List.orderedInsert, List.range_succ, List.countP_cons,
      List.filterMap_cons, List.countP_nil]
  rw [htab]
  norm_num [featureBinningTransform, List.findIdx?_cons, SENTN, SENTP]

/-- C5 witness: the table fitted on `[1,2,3,4]` with 2 bins has strictly
increasing breaks `[0.999, 2.5, 4]`, and the out-of-training-range value
100 still gets a bin. -/
theorem C5_transform_total_witness :
    ((binBreaks (dropna (([1, 2, 3, 4].map Option.some).take 4)) 2).Chain' (· < ·) ∧
     2 ≤ (binBreaks (dropna (([1, 2, 3, 4].map Option.some).take 4)) 2).length ∧
     SENTN ≤ (100 : ℚ) ∧ (100 : ℚ) ≤ SENTP) ∧
    (featureBinningTransform
      (featureBinningTable ([1, 2, 3, 4].map Option.some) 4 2) 100).isSome := by
  have hbrk : binBreaks (dropna (([1, 2, 3, 4].map Option.some).take 4)) 2 =
      [999/1000, 5/2, 4] := by
    norm_num [binBreaks, dropna, binEdgesRaw, quantileSorted, npUnique, dedupAdj,
      binBreaksOf, roundFrac, roundTo, rndHalfEven, abs,
      List.insertionSort, List.orderedInsert, List.range_succ]
  refine ⟨⟨?_, ?_, ?_, ?_⟩, ?_⟩
  · rw [hbrk]
    norm_num [List.chain'_cons]
  · rw [hbrk]
    norm_num
  · norm_num [SENTN]
  · norm_num [SENTP]
  · exact C5_transform_total_within_sentinels ([1, 2, 3, 4].map Option.some) 4 2 100
      (by rw [hbrk]; norm_num [List.chain'_cons])
      (by rw [hbrk]; norm_num)
      (by norm_num [SENTN])
      (by norm_num [SENTP])

end BeautifulModel
